import Mathlib

/-!
Shallow embedding of the `vm-device` crate (files `src/bus.rs`,
`src/device_manager.rs`, `src/lib.rs`) and verification of its
specification claims.

Addresses and address-space values are modelled as `Nat` together with an
explicit domain maximum `M` (the largest representable address/value of the
domain): overflow-checked addition `checked_add` succeeds exactly when the
mathematical sum stays `≤ M`.  This covers both concrete domains of the
crate (MMIO: `u64`, so `M = 2^64 - 1`; PIO: `u16` on x86_64, so
`M = 2^16 - 1`).

The `BTreeMap<BusRange<A>, D>` backing a `Bus` is modelled as an
association list `List (BusRange × D)` kept sorted strictly by `base`
(`BusRange`'s `Ord` implementation compares only `base`, so the map's keys
are ordered and deduplicated by base).  The well-formedness facts
(`BasesSorted`, and pairwise interval disjointness where a claim assumes
it) appear as explicit hypotheses, following the list-backed-map style.

Rust panics (the `assert!` in `Bus::register`, the `.unwrap()` calls in
`IoManager::register_*_resources`) are modelled by an explicit `panicked`
result constructor.
-/

namespace VmDev

/-- Errors of bus operations (`bus::Error` in `src/bus.rs`). -/
inductive Error where
  | DeviceNotFound
  | DeviceOverlap
  | InvalidAccessLength
  | InvalidRange
deriving DecidableEq, Repr

/-- An interval in the address space of a bus (`BusRange<A>` in `src/bus.rs`):
a base address together with a size. -/
structure BusRange where
  base : Nat
  size : Nat
deriving DecidableEq, Repr

/-- `BusAddress::checked_add` for a domain whose maximum representable
address is `M`: the sum, provided it does not overflow. -/
def checkedAdd (M a v : Nat) : Option Nat :=
  if a + v ≤ M then some (a + v) else none

/-- `BusRange::new`: create a range, rejecting a zero size and a last
address that would overflow the domain maximum `M`. -/
def BusRange.new (M base size : Nat) : Except Error BusRange :=
  if size = 0 then
    .error .InvalidRange
  else
    match checkedAdd M base (size - 1) with
    | none => .error .InvalidRange
    | some _ => .ok ⟨base, size⟩

/-- `BusRange::new_unit`: a range of size one, used for point queries. -/
def BusRange.new_unit (base : Nat) : BusRange :=
  ⟨base, 1⟩

/-- `BusRange::last`: the last address still inside the range. -/
def BusRange.last (r : BusRange) : Nat :=
  r.base + (r.size - 1)

/-- `BusRange::overlaps`, exactly as the source computes it:
`self.base > other.last() || self.last() < other.base`. -/
def BusRange.overlaps (a b : BusRange) : Bool :=
  decide (a.base > b.last) || decide (a.last < b.base)

/-- The mathematical notion used by the spec: two ranges overlap as
intervals iff `¬(a.base > b.last ∨ a.last < b.base)`, i.e. the closed
intervals `[a.base, a.last]` and `[b.base, b.last]` intersect. -/
def BusRange.intersects (a b : BusRange) : Prop :=
  a.base ≤ b.last ∧ b.base ≤ a.last

instance (a b : BusRange) : Decidable (a.intersects b) :=
  inferInstanceAs (Decidable (a.base ≤ b.last ∧ b.base ≤ a.last))

/-- The map keys are strictly increasing in `base` — the representation
invariant of `BTreeMap` under `BusRange`'s base-only `Ord`. -/
def BasesSorted {D : Type} (l : List (BusRange × D)) : Prop :=
  l.Pairwise (fun p q => p.1.base < q.1.base)

/-- No two stored ranges overlap as intervals, regardless of the
associated devices — the bus invariant stated by the spec. -/
def RangesDisjoint {D : Type} (l : List (BusRange × D)) : Prop :=
  l.Pairwise (fun p q => ¬ p.1.intersects q.1)

instance {D : Type} (l : List (BusRange × D)) : Decidable (BasesSorted l) :=
  inferInstanceAs (Decidable (l.Pairwise _))

instance {D : Type} (l : List (BusRange × D)) : Decidable (RangesDisjoint l) :=
  inferInstanceAs (Decidable (l.Pairwise _))

/-- `BTreeMap::range(..=BusRange::new_unit(addr)).nth_back(0)`: the entry
with the greatest base `≤ addr` (keys are compared by base only). -/
def floorEntry {D : Type} (l : List (BusRange × D)) (addr : Nat) :
    Option (BusRange × D) :=
  (l.filter (fun p => decide (p.1.base ≤ (BusRange.new_unit addr).base))).getLast?

/-- `Bus::device`: floor lookup by base, then require that the found range
actually extends to `addr`. -/
def Bus.device {D : Type} (l : List (BusRange × D)) (addr : Nat) :
    Option (BusRange × D) :=
  (floorEntry l addr).filter (fun p => decide (p.1.last ≥ addr))

/-- `Bus::device_mut`: same lookup as `Bus::device` (the source duplicates
the body, differing only in mutability of the returned device). -/
def Bus.device_mut {D : Type} (l : List (BusRange × D)) (addr : Nat) :
    Option (BusRange × D) :=
  (floorEntry l addr).filter (fun p => decide (p.1.last ≥ addr))

/-- `BTreeMap::insert` on the base-keyed map: replace the value when a key
with the same base exists (returning the old value), otherwise insert in
order and return `none`. -/
def insertSorted {D : Type} (l : List (BusRange × D)) (r : BusRange) (d : D) :
    List (BusRange × D) × Option D :=
  match l with
  | [] => ([(r, d)], none)
  | (r', d') :: rest =>
    if r.base < r'.base then ((r, d) :: (r', d') :: rest, none)
    else if r.base = r'.base then ((r, d) :: rest, some d')
    else
      let res := insertSorted rest r d
      ((r', d') :: res.1, res.2)

/-- `BTreeMap::remove` on the base-keyed map: drop the entry whose base
equals the key's base, returning its value when present. -/
def removeKey {D : Type} (l : List (BusRange × D)) (base : Nat) :
    List (BusRange × D) × Option D :=
  match l with
  | [] => ([], none)
  | (r', d') :: rest =>
    if r'.base = base then (rest, some d')
    else
      let res := removeKey rest base
      ((r', d') :: res.1, res.2)

/-- Outcome of `Bus::register`: success with the new registry, an error,
or a panic of the `assert!` guarding the insertion. -/
inductive RegResult (D : Type) where
  | ok (bus : List (BusRange × D))
  | err (e : Error)
  | panicked
deriving DecidableEq

/-- `Bus::register`: scan all stored keys with `overlaps`, fail with
`DeviceOverlap` when the scan reports a hit, otherwise insert; the
`assert!(insert(..).is_none())` becomes `panicked` when the insertion
replaces an existing key. -/
def Bus.register {D : Type} (l : List (BusRange × D)) (r : BusRange) (d : D) :
    RegResult D :=
  if (l.map Prod.fst).any (fun k => r.overlaps k) then
    .err .DeviceOverlap
  else
    match insertSorted l r d with
    | (l', none) => .ok l'
    | (_, some _) => .panicked

/-- `Bus::unregister`: find the owning range via `Bus::device`, remove it
by key, and return the removed pair together with the new registry. -/
def Bus.unregister {D : Type} (l : List (BusRange × D)) (addr : Nat) :
    Option (BusRange × D × List (BusRange × D)) :=
  match Bus.device l addr with
  | none => none
  | some (r, _) =>
    match removeKey l r.base with
    | (l', some d) => some (r, d, l')
    | (_, none) => none

/-- Registry states reachable from the empty bus by any sequence of
successful `register` and `unregister` operations. -/
inductive Reachable {D : Type} : List (BusRange × D) → Prop where
  | empty : Reachable []
  | register {l l' : List (BusRange × D)} (r : BusRange) (d : D)
      (h : Reachable l) (hr : Bus.register l r d = .ok l') : Reachable l'
  | unregister {l l' : List (BusRange × D)} (addr : Nat) (r : BusRange) (d : D)
      (h : Reachable l) (hu : Bus.unregister l addr = some (r, d, l')) :
      Reachable l'

/-- `usize::try_into::<A::V>()` for a domain whose value type has maximum
`M`: the conversion succeeds exactly when the length is representable. -/
def tryIntoV (M len : Nat) : Option Nat :=
  if len ≤ M then some len else none

/-- `BusManager::check_access`: convert the length, build the access
range, look up the device owning `addr`, and require that the owning
range extends at least to the access range's last address. -/
def check_access {D : Type} (M : Nat) (l : List (BusRange × D))
    (addr len : Nat) : Except Error (BusRange × D) :=
  match tryIntoV M len with
  | none => .error .InvalidAccessLength
  | some size =>
    match BusRange.new M addr size with
    | .error _ => .error .InvalidRange
    | .ok access =>
      match (Bus.device l addr).filter
          (fun p => decide (p.1.last ≥ access.last)) with
      | none => .error .DeviceNotFound
      | some p => .ok p

/-- Whether a dispatched access invokes the device's read or its write
capability. -/
inductive AccessKind where
  | read
  | write
deriving DecidableEq, Repr

/-- The observable device-capability invocation produced by a dispatch:
which capability was called, on which device handle, and with which
`(base, offset, buffer length)` arguments. -/
structure Invocation (D : Type) where
  kind : AccessKind
  dev : D
  base : Nat
  offset : Nat
  len : Nat
deriving DecidableEq, Repr

/-- `MmioManager::mmio_read`: `check_access`, then invoke the device's
read capability with `(range.base(), addr - range.base(), data)`. -/
def mmio_read {D : Type} (M : Nat) (l : List (BusRange × D))
    (addr dataLen : Nat) : Except Error (Invocation D) :=
  (check_access M l addr dataLen).map
    (fun p => ⟨.read, p.2, p.1.base, addr - p.1.base, dataLen⟩)

/-- `MmioManager::mmio_write`: `check_access`, then invoke the device's
write capability with `(range.base(), addr - range.base(), data)`. -/
def mmio_write {D : Type} (M : Nat) (l : List (BusRange × D))
    (addr dataLen : Nat) : Except Error (Invocation D) :=
  (check_access M l addr dataLen).map
    (fun p => ⟨.write, p.2, p.1.base, addr - p.1.base, dataLen⟩)

/-- `PioManager::pio_read`: `check_access` on the PIO bus, then invoke
the device's read capability with `(range.base(), addr - range.base(), data)`. -/
def pio_read {D : Type} (M : Nat) (l : List (BusRange × D))
    (addr dataLen : Nat) : Except Error (Invocation D) :=
  (check_access M l addr dataLen).map
    (fun p => ⟨.read, p.2, p.1.base, addr - p.1.base, dataLen⟩)

/-- `PioManager::pio_write`: `check_access` on the PIO bus, then invoke
the device's write capability with `(range.base(), addr - range.base(), data)`. -/
def pio_write {D : Type} (M : Nat) (l : List (BusRange × D))
    (addr dataLen : Nat) : Except Error (Invocation D) :=
  (check_access M l addr dataLen).map
    (fun p => ⟨.write, p.2, p.1.base, addr - p.1.base, dataLen⟩)

/-- Modelled from the spec: the `Resource` enum of the crate's `resources`
module, whose source file is not present in the repository (`lib.rs`
declares `pub mod resources;`).  The spec describes it as a closed variant
set including at least an MMIO address range, a PIO address range, and
non-address kinds such as a legacy interrupt line, which the I/O manager
ignores. -/
inductive Resource where
  | MmioAddressRange (base size : Nat)
  | PioAddressRange (base size : Nat)
  | LegacyIrq (irq : Nat)
deriving DecidableEq, Repr

/-- `device_manager::Error`: wraps a bus error. -/
inductive ManagerError where
  | Bus (e : Error)
deriving DecidableEq, Repr

/-- Outcome of an `IoManager` resource-registration call: success with
the new bus contents, a wrapped bus error, or a panic (from the
`.unwrap()` on range construction or from `Bus::register`'s assertion). -/
inductive IoResult (D : Type) where
  | ok (bus : List (BusRange × D))
  | err (e : ManagerError)
  | panicked
deriving DecidableEq

/-- `IoManager::register_mmio_resources`: for each descriptor matching the
MMIO address-range variant, build the range with
`MmioRange::new(base, size).unwrap()` (panicking when construction fails)
and register it, propagating the first bus error wrapped in
`ManagerError.Bus`; other descriptor kinds are skipped. -/
def register_mmio_resources {D : Type} (M : Nat) (bus : List (BusRange × D))
    (device : D) : List Resource → IoResult D
  | [] => .ok bus
  | res :: rest =>
    match res with
    | .MmioAddressRange base size =>
      match BusRange.new M base size with
      | .error _ => .panicked
      | .ok r =>
        match Bus.register bus r device with
        | .err e => .err (.Bus e)
        | .panicked => .panicked
        | .ok bus' => register_mmio_resources M bus' device rest
    | _ => register_mmio_resources M bus device rest

/-- `IoManager::register_pio_resources`: same as the MMIO variant but for
PIO address-range descriptors, with `PioRange::new(base, size).unwrap()`. -/
def register_pio_resources {D : Type} (M : Nat) (bus : List (BusRange × D))
    (device : D) : List Resource → IoResult D
  | [] => .ok bus
  | res :: rest =>
    match res with
    | .PioAddressRange base size =>
      match BusRange.new M base size with
      | .error _ => .panicked
      | .ok r =>
        match Bus.register bus r device with
        | .err e => .err (.Bus e)
        | .panicked => .panicked
        | .ok bus' => register_pio_resources M bus' device rest
    | _ => register_pio_resources M bus device rest

/-! ### Helper lemmas -/

theorem base_le_last (r : BusRange) : r.base ≤ r.last := by
  unfold BusRange.last
  omega

/-- Soundness of `Bus::device`: a returned entry is stored and its
interval contains the queried address. -/
theorem device_sound {D : Type} {l : List (BusRange × D)} {addr : Nat}
    {p : BusRange × D} (h : Bus.device l addr = some p) :
    p ∈ l ∧ p.1.base ≤ addr ∧ addr ≤ p.1.last := by
  unfold Bus.device at h
  rw [Option.filter_eq_some] at h
  obtain ⟨hmem, hlast⟩ := h
  unfold floorEntry at hmem
  rw [Option.mem_def, List.getLast?_eq_some_iff] at hmem
  obtain ⟨ys, hys⟩ := hmem
  have hpf : p ∈ l.filter
      (fun q => decide (q.1.base ≤ (BusRange.new_unit addr).base)) := by
    rw [hys]
    exact List.mem_append_right ys (by simp)
  rw [List.mem_filter] at hpf
  refine ⟨hpf.1, ?_, ?_⟩
  · simpa [BusRange.new_unit] using hpf.2
  · simpa using hlast

/-- Completeness of `Bus::device` on a well-formed registry: a stored
entry whose interval contains the queried address is found. -/
theorem device_complete {D : Type} {l : List (BusRange × D)} {addr : Nat}
    {p : BusRange × D} (hs : BasesSorted l) (hd : RangesDisjoint l)
    (hmem : p ∈ l) (h1 : p.1.base ≤ addr) (h2 : addr ≤ p.1.last) :
    Bus.device l addr = some p := by
  induction l with
  | nil => cases hmem
  | cons q t ih =>
    rw [BasesSorted, List.pairwise_cons] at hs
    rw [RangesDisjoint, List.pairwise_cons] at hd
    rcases List.mem_cons.mp hmem with hpq | hpt
    · subst hpq
      have hft : t.filter
          (fun x => decide (x.1.base ≤ (BusRange.new_unit addr).base)) = [] := by
        rw [List.filter_eq_nil_iff]
        intro x hx
        simp only [BusRange.new_unit, decide_eq_true_eq]
        intro hxb
        exact hd.1 x hx
          ⟨le_trans (le_of_lt (hs.1 x hx)) (base_le_last x.1), le_trans hxb h2⟩
      unfold Bus.device floorEntry
      rw [List.filter_cons, if_pos (by simpa [BusRange.new_unit] using h1), hft]
      simp [Option.filter, h2]
    · have hne : t.filter
          (fun x => decide (x.1.base ≤ (BusRange.new_unit addr).base)) ≠ [] := by
        intro h0
        rw [List.filter_eq_nil_iff] at h0
        exact (h0 p hpt) (by simpa [BusRange.new_unit] using h1)
      have hfe : floorEntry (q :: t) addr = floorEntry t addr := by
        unfold floorEntry
        rw [List.filter_cons]
        split
        · cases hft : t.filter
              (fun x => decide (x.1.base ≤ (BusRange.new_unit addr).base)) with
          | nil => exact absurd hft hne
          | cons y ys => exact List.getLast?_cons_cons
        · rfl
      unfold Bus.device
      rw [hfe]
      exact ih hs.2 hd.2 hpt

/-- On a well-formed registry, `Bus::device` misses exactly when no
stored interval contains the queried address. -/
theorem device_none_iff {D : Type} {l : List (BusRange × D)} {addr : Nat}
    (hs : BasesSorted l) (hd : RangesDisjoint l) :
    Bus.device l addr = none ↔
      ∀ p ∈ l, ¬ (p.1.base ≤ addr ∧ addr ≤ p.1.last) := by
  constructor
  · intro h p hp hc
    have hsome := device_complete hs hd hp hc.1 hc.2
    rw [h] at hsome
    cases hsome
  · intro h
    cases hdev : Bus.device l addr with
    | none => rfl
    | some p =>
      obtain ⟨hm, h1, h2⟩ := device_sound hdev
      exact absurd ⟨h1, h2⟩ (h p hm)

/-! ### Claim theorems -/

/-- C1: the claimed invariant — every registry reachable from the empty
bus by `register`/`unregister` stores pairwise non-overlapping ranges —
fails on the code: because `BusRange::overlaps` computes the disjointness
condition instead of the overlap condition, registering `{base 0, size 2}`
and then `{base 1, size 2}` both succeed, producing a reachable state
whose two stored ranges overlap as intervals. -/
theorem claim_C1_invariant_violated :
    Reachable [((⟨0, 2⟩ : BusRange), ()), (⟨1, 2⟩, ())] ∧
    ¬ RangesDisjoint [((⟨0, 2⟩ : BusRange), ()), (⟨1, 2⟩, ())] := by
  constructor
  · exact .register ⟨1, 2⟩ () (.register ⟨0, 2⟩ () .empty rfl) rfl
  · decide

/-- C2: the claim that `overlaps(a, b)` returns true iff
`¬(a.base > b.last ∨ a.last < b.base)` fails on the code: the source body
returns `a.base > b.last || a.last < b.base` itself, i.e. the negation.
Concretely, the disjoint ranges `{0,1}` and `{10,1}` report `true`, and
the genuinely overlapping ranges `{0,2}` and `{1,2}` report `false`. -/
theorem claim_C2_overlaps_inverted :
    BusRange.overlaps ⟨0, 1⟩ ⟨10, 1⟩ = true ∧
    ¬ BusRange.intersects ⟨0, 1⟩ ⟨10, 1⟩ ∧
    BusRange.overlaps ⟨0, 2⟩ ⟨1, 2⟩ = false ∧
    BusRange.intersects ⟨0, 2⟩ ⟨1, 2⟩ := by
  decide

/-- C3: the claim that `register` returns `DeviceOverlap` exactly when the
new range overlaps a stored range fails on the code: with `{0,1}` stored,
registering the disjoint `{5,1}` is rejected with `DeviceOverlap`, while
with `{0,2}` stored, registering the overlapping `{1,2}` succeeds and is
inserted. -/
theorem claim_C3_register_inverted :
    Bus.register [((⟨0, 1⟩ : BusRange), ())] ⟨5, 1⟩ () = .err .DeviceOverlap ∧
    ¬ BusRange.intersects ⟨5, 1⟩ ⟨0, 1⟩ ∧
    Bus.register [((⟨0, 2⟩ : BusRange), ())] ⟨1, 2⟩ ()
      = .ok [(⟨0, 2⟩, ()), (⟨1, 2⟩, ())] ∧
    BusRange.intersects ⟨1, 2⟩ ⟨0, 2⟩ := by
  decide

/-- C4: the claim that the assertion guarding the insertion in `register`
is unreachable fails on the code: the state holding `{0,2}` is reachable,
its overlap scan lets the same-base range `{0,1}` through (the inverted
`overlaps` reports `false` for these intersecting ranges), and the
insertion then replaces the existing key, firing the assertion — the
model's `panicked` outcome. -/
theorem claim_C4_assert_reachable :
    Reachable [((⟨0, 2⟩ : BusRange), ())] ∧
    Bus.register [((⟨0, 2⟩ : BusRange), ())] ⟨0, 1⟩ () = .panicked := by
  exact ⟨.register ⟨0, 2⟩ () .empty rfl, by decide⟩

/-- C8: `Range::new(base, size)` fails with `InvalidRange` iff `size = 0`
or `base + (size - 1)` overflows the domain maximum `M`; otherwise it
returns `{base, size}`; and in particular `Range::new(M - 1, 4)` fails. -/
theorem claim_C8_range_new (M base size : Nat) :
    (BusRange.new M base size = .error .InvalidRange ↔
      size = 0 ∨ M < base + (size - 1)) ∧
    (¬ (size = 0 ∨ M < base + (size - 1)) →
      BusRange.new M base size = .ok ⟨base, size⟩) ∧
    BusRange.new M (M - 1) 4 = .error .InvalidRange := by
  refine ⟨?_, ?_, ?_⟩
  · unfold BusRange.new checkedAdd
    split_ifs <;> simp_all
  · intro h
    unfold BusRange.new checkedAdd
    rw [if_neg (by omega), if_pos (by omega)]
  · unfold BusRange.new checkedAdd
    rw [if_neg (by omega), if_neg (by omega)]

theorem claim_C8_witness :
    ¬ ((3 : Nat) = 0 ∨ (100 : Nat) < 2 + (3 - 1)) ∧
    BusRange.new 100 2 3 = .ok ⟨2, 3⟩ :=
  ⟨by decide, (claim_C8_range_new 100 2 3).2.1 (by decide)⟩

/-- C10: `Bus::device_mut` locates exactly the same entry as
`Bus::device` on every registry state and address (the two bodies differ
only in the mutability of the returned device reference). -/
theorem claim_C10_device_mut_eq_device {D : Type} (l : List (BusRange × D))
    (addr : Nat) :
    Bus.device_mut l addr = Bus.device l addr :=
  rfl

theorem check_access_bad_len {D : Type} (M : Nat) (l : List (BusRange × D))
    (addr len : Nat) (h : ¬ len ≤ M) :
    check_access M l addr len = .error .InvalidAccessLength := by
  unfold check_access tryIntoV
  rw [if_neg h]

theorem check_access_bad_range {D : Type} (M : Nat) (l : List (BusRange × D))
    (addr len : Nat) (h1 : len ≤ M) (h2 : len = 0 ∨ M < addr + (len - 1)) :
    check_access M l addr len = .error .InvalidRange := by
  have h4 : tryIntoV M len = some len := by
    unfold tryIntoV
    rw [if_pos h1]
  have hnew : BusRange.new M addr len = .error .InvalidRange := by
    unfold BusRange.new checkedAdd
    rcases h2 with h0 | hov
    · rw [if_pos h0]
    · by_cases hz : len = 0
      · rw [if_pos hz]
      · rw [if_neg hz, if_neg (by omega)]
  unfold check_access
  simp only [h4, hnew]

theorem check_access_valid {D : Type} {M : Nat} (l : List (BusRange × D))
    {addr len : Nat} (h1 : len ≤ M) (h2 : len ≠ 0)
    (h3 : addr + (len - 1) ≤ M) :
    check_access M l addr len =
      match (Bus.device l addr).filter
          (fun p => decide (p.1.last ≥ addr + (len - 1))) with
      | none => .error .DeviceNotFound
      | some p => .ok p := by
  have h4 : tryIntoV M len = some len := by
    unfold tryIntoV
    rw [if_pos h1]
  have hnew : BusRange.new M addr len = .ok ⟨addr, len⟩ := by
    unfold BusRange.new checkedAdd
    rw [if_neg h2, if_pos h3]
  unfold check_access
  simp only [h4, hnew]
  rfl

/-- C5: on a registry whose stored ranges are pairwise disjoint (with the
base-sorted key representation of the backing `BTreeMap`), `Bus::device`
returns exactly the stored entry whose interval contains the queried
address, and `none` when no stored interval contains it — in particular an
address in a gap between ranges reports not-found rather than the nearest
range. -/
theorem claim_C5_device_lookup {D : Type} (l : List (BusRange × D))
    (hs : BasesSorted l) (hd : RangesDisjoint l) (addr : Nat) :
    (∀ p, Bus.device l addr = some p ↔
        p ∈ l ∧ p.1.base ≤ addr ∧ addr ≤ p.1.last) ∧
    (Bus.device l addr = none ↔
        ∀ p ∈ l, ¬ (p.1.base ≤ addr ∧ addr ≤ p.1.last)) := by
  constructor
  · intro p
    constructor
    · exact device_sound
    · rintro ⟨hm, h1, h2⟩
      exact device_complete hs hd hm h1 h2
  · exact device_none_iff hs hd

theorem claim_C5_witness :
    BasesSorted [((⟨10, 4⟩ : BusRange), 0), (⟨20, 4⟩, 1)] ∧
    RangesDisjoint [((⟨10, 4⟩ : BusRange), 0), (⟨20, 4⟩, 1)] ∧
    (Bus.device [((⟨10, 4⟩ : BusRange), 0), (⟨20, 4⟩, 1)] 15 = none ↔
      ∀ p ∈ [((⟨10, 4⟩ : BusRange), 0), (⟨20, 4⟩, 1)],
        ¬ (p.1.base ≤ 15 ∧ 15 ≤ p.1.last)) :=
  ⟨by decide, by decide,
    (claim_C5_device_lookup _ (by decide) (by decide) 15).2⟩

/-- C6: on a well-formed registry, `check_access(addr, len)` fails
`InvalidAccessLength` exactly when `len` is not representable in the
domain's value type, fails `InvalidRange` exactly when the access range is
invalid under the range-construction rules, fails `DeviceNotFound` exactly
when no stored interval covers the full span `[addr, addr + len - 1]`
(either no range covers `addr`, or the covering range ends before the
span does), and otherwise returns the covering entry. -/
theorem claim_C6_check_access {D : Type} (M : Nat) (l : List (BusRange × D))
    (hs : BasesSorted l) (hd : RangesDisjoint l) (addr len : Nat) :
    (check_access M l addr len = .error .InvalidAccessLength ↔ M < len) ∧
    (check_access M l addr len = .error .InvalidRange ↔
      len ≤ M ∧ (len = 0 ∨ M < addr + (len - 1))) ∧
    (check_access M l addr len = .error .DeviceNotFound ↔
      (len ≤ M ∧ 0 < len ∧ addr + (len - 1) ≤ M) ∧
      ∀ p ∈ l, p.1.base ≤ addr → addr ≤ p.1.last →
        p.1.last < addr + (len - 1)) ∧
    (∀ p, check_access M l addr len = .ok p ↔
      (len ≤ M ∧ 0 < len ∧ addr + (len - 1) ≤ M) ∧
      p ∈ l ∧ p.1.base ≤ addr ∧ addr + (len - 1) ≤ p.1.last) := by
  by_cases h1 : len ≤ M
  · by_cases h2 : len = 0 ∨ M < addr + (len - 1)
    · rw [check_access_bad_range M l addr len h1 h2]
      refine ⟨?_, iff_of_true rfl ⟨h1, h2⟩, ?_, ?_⟩
      · constructor
        · intro h
          simp at h
        · intro h
          omega
      · constructor
        · intro h
          simp at h
        · rintro ⟨⟨_, hpos, hle⟩, _⟩
          omega
      · intro p
        constructor
        · intro h
          simp at h
        · rintro ⟨⟨_, hpos, hle⟩, _⟩
          omega
    · have hz : len ≠ 0 := by omega
      have h3 : addr + (len - 1) ≤ M := by omega
      have hca := check_access_valid l h1 hz h3
      cases hdev : Bus.device l addr with
      | none =>
        rw [hdev] at hca
        simp only [Option.filter] at hca
        have hnone := (device_none_iff hs hd).mp hdev
        rw [hca]
        refine ⟨?_, ?_, ?_, ?_⟩
        · constructor
          · intro h
            simp at h
          · intro h
            omega
        · constructor
          · intro h
            simp at h
          · rintro ⟨_, hx⟩
            omega
        · refine iff_of_true rfl ⟨⟨h1, by omega, h3⟩, ?_⟩
          intro p hp hb hl
          exact absurd ⟨hb, hl⟩ (hnone p hp)
        · intro p
          constructor
          · intro h
            simp at h
          · rintro ⟨_, hm, hb, hl⟩
            exact absurd ⟨hb, by omega⟩ (hnone p hm)
      | some p0 =>
        rw [hdev] at hca
        have hsound := device_sound hdev
        by_cases h4 : addr + (len - 1) ≤ p0.1.last
        · have hca2 : check_access M l addr len = .ok p0 := by
            rw [hca]
            simp [Option.filter, h4]
          rw [hca2]
          refine ⟨?_, ?_, ?_, ?_⟩
          · constructor
            · intro h
              simp at h
            · intro h
              omega
          · constructor
            · intro h
              simp at h
            · rintro ⟨_, hx⟩
              omega
          · constructor
            · intro h
              simp at h
            · rintro ⟨_, hall⟩
              have := hall p0 hsound.1 hsound.2.1 hsound.2.2
              omega
          · intro p
            constructor
            · intro h
              rw [Except.ok.injEq] at h
              subst h
              exact ⟨⟨h1, by omega, h3⟩, hsound.1, hsound.2.1, h4⟩
            · rintro ⟨_, hm, hb, hl⟩
              have hc := device_complete hs hd hm hb (by omega)
              rw [hdev] at hc
              injection hc with h5
              rw [h5]
        · have hca2 : check_access M l addr len = .error .DeviceNotFound := by
            rw [hca]
            simp [Option.filter, h4]
          rw [hca2]
          refine ⟨?_, ?_, ?_, ?_⟩
          · constructor
            · intro h
              simp at h
            · intro h
              omega
          · constructor
            · intro h
              simp at h
            · rintro ⟨_, hx⟩
              omega
          · refine iff_of_true rfl ⟨⟨h1, by omega, h3⟩, ?_⟩
            intro p hp hb hl
            have hc := device_complete hs hd hp hb hl
            rw [hdev] at hc
            injection hc with h5
            rw [← h5]
            omega
          · intro p
            constructor
            · intro h
              simp at h
            · rintro ⟨_, hm, hb, hl⟩
              have hc := device_complete hs hd hm hb (by omega)
              rw [hdev] at hc
              injection hc with h5
              rw [← h5] at hl
              omega
  · rw [check_access_bad_len M l addr len h1]
    refine ⟨iff_of_true rfl (by omega), ?_, ?_, ?_⟩
    · constructor
      · intro h
        simp at h
      · rintro ⟨hA, _⟩
        exact absurd hA h1
    · constructor
      · intro h
        simp at h
      · rintro ⟨⟨hA, _⟩, _⟩
        exact absurd hA h1
    · intro p
      constructor
      · intro h
        simp at h
      · rintro ⟨⟨hA, _⟩, _⟩
        exact absurd hA h1

theorem claim_C6_witness :
    BasesSorted [((⟨10, 4⟩ : BusRange), 0)] ∧
    RangesDisjoint [((⟨10, 4⟩ : BusRange), 0)] ∧
    (check_access 100 [((⟨10, 4⟩ : BusRange), 0)] 11 2 = .ok (⟨10, 4⟩, 0) ↔
      ((2 : Nat) ≤ 100 ∧ (0 : Nat) < 2 ∧ 11 + (2 - 1) ≤ 100) ∧
      ((⟨10, 4⟩ : BusRange), 0) ∈ [((⟨10, 4⟩ : BusRange), 0)] ∧
      (10 : Nat) ≤ 11 ∧ 11 + (2 - 1) ≤ BusRange.last ⟨10, 4⟩) :=
  ⟨by decide, by decide,
    (claim_C6_check_access 100 _ (by decide) (by decide) 11 2).2.2.2 (⟨10, 4⟩, 0)⟩

/-- C7: whenever `check_access` succeeds with owning range `r` and device
`d`, each of `mmio_read`, `mmio_write`, `pio_read` and `pio_write`
invokes the device capability exactly with `(r.base, addr - r.base,
buffer)`: the device sees an offset relative to its own registered base,
and the buffer length is the requested access length. -/
theorem claim_C7_dispatch {D : Type} (M : Nat) (l : List (BusRange × D))
    (addr n : Nat) (r : BusRange) (d : D)
    (h : check_access M l addr n = .ok (r, d)) :
    mmio_read M l addr n = .ok ⟨.read, d, r.base, addr - r.base, n⟩ ∧
    mmio_write M l addr n = .ok ⟨.write, d, r.base, addr - r.base, n⟩ ∧
    pio_read M l addr n = .ok ⟨.read, d, r.base, addr - r.base, n⟩ ∧
    pio_write M l addr n = .ok ⟨.write, d, r.base, addr - r.base, n⟩ := by
  unfold mmio_read mmio_write pio_read pio_write
  rw [h]
  exact ⟨rfl, rfl, rfl, rfl⟩

theorem claim_C7_witness :
    check_access 100 [((⟨10, 4⟩ : BusRange), 7)] 11 2 = .ok (⟨10, 4⟩, 7) ∧
    mmio_read 100 [((⟨10, 4⟩ : BusRange), 7)] 11 2 = .ok ⟨.read, 7, 10, 1, 2⟩ :=
  ⟨rfl, (claim_C7_dispatch 100 [((⟨10, 4⟩ : BusRange), 7)] 11 2 ⟨10, 4⟩ 7 rfl).1⟩

/-- C9 counterexample: the claim that `register_mmio_resources` and
`register_pio_resources` never panic fails on the code: a matching
address-range descriptor with a zero-sized range makes the
`Range::new(..).unwrap()` in the loop panic instead of returning an
error. -/
theorem claim_C9_counterexample :
    register_mmio_resources (2 ^ 64 - 1) ([] : List (BusRange × Unit)) ()
      [.MmioAddressRange 0 0] = .panicked ∧
    register_pio_resources (2 ^ 16 - 1) ([] : List (BusRange × Unit)) ()
      [.PioAddressRange 0 0] = .panicked :=
  ⟨rfl, rfl⟩

/-- C9 amended: `register_mmio_resources` and `register_pio_resources`
surface bus-registration failures for matching address-range descriptors
as explicit `Error::Bus(..)` result values, but a matching descriptor
whose range is invalid (zero size, or `base + size - 1` overflowing the
domain maximum) panics through the `.unwrap()` on range construction
rather than returning an error. -/
theorem claim_C9_amended {D : Type} (M : Nat) (bus : List (BusRange × D))
    (dev : D) (base size : Nat) :
    ((size = 0 ∨ M < base + (size - 1)) →
      register_mmio_resources M bus dev [.MmioAddressRange base size]
          = .panicked ∧
      register_pio_resources M bus dev [.PioAddressRange base size]
          = .panicked) ∧
    (∀ r e, BusRange.new M base size = .ok r →
      Bus.register bus r dev = .err e →
      register_mmio_resources M bus dev [.MmioAddressRange base size]
          = .err (.Bus e) ∧
      register_pio_resources M bus dev [.PioAddressRange base size]
          = .err (.Bus e)) := by
  constructor
  · intro hbad
    have hnew : BusRange.new M base size = .error .InvalidRange := by
      unfold BusRange.new checkedAdd
      rcases hbad with h0 | hov
      · rw [if_pos h0]
      · by_cases hz : size = 0
        · rw [if_pos hz]
        · rw [if_neg hz, if_neg (by omega)]
    constructor
    · simp [register_mmio_resources, hnew]
    · simp [register_pio_resources, hnew]
  · intro r e hnew hreg
    constructor
    · simp [register_mmio_resources, hnew, hreg]
    · simp [register_pio_resources, hnew, hreg]

theorem claim_C9_amended_witness :
    ((0 : Nat) = 0 ∨ (100 : Nat) < 5 + (0 - 1)) ∧
    register_mmio_resources 100 ([] : List (BusRange × Unit)) ()
      [.MmioAddressRange 5 0] = .panicked :=
  ⟨Or.inl rfl, ((claim_C9_amended 100 [] () 5 0).1 (Or.inl rfl)).1⟩

end VmDev
